import Mathlib

/-!
# Verification of the GoFE cryptographic core against its specification

Shallow embedding of two subsystems of the GoFE functional-encryption
library: the Ring-LWE inner-product scheme (`simple` package) and the
multi-authority attribute-based encryption scheme (`abe` package).

Conventions of the embedding:

* Go `big.Int` values are `ℤ`; `big.Int.Div`/`Mod` are Euclidean division,
  i.e. `Int.ediv`/`Int.emod`.
* Go byte slices are `List ℕ`.
* The bn256 bilinear group (external to the repository) is embedded in the
  exponent: elements of `G1`, `G2`, `GT` are their discrete logarithms with
  respect to the fixed generators, living in `ZMod p` where `p` is the group
  order; `ScalarMult` is multiplication and `Pair` is the product of the two
  logarithms.
* All randomness (uniform vectors, Gaussian samples, session keys, IVs) is
  injected as explicit arguments, mirroring the values the RNG would return.
* AES-CBC and SHA-256 are external primitives ("assumed available" per the
  specification); they appear as abstract function parameters.
* `big.Float` quantities (the Gaussian widths and the lattice-cost check of
  the Ring-LWE parameter search) are floating point and are abstracted as
  oracles where a claim depends only on control flow.
-/

namespace GoFE

/-- Modelled from the spec: the dot product underlying `data.Vector.Dot` /
`data.Matrix.MulVec` ("standard matrix·vector over Z_q", §4.2). -/
def dotZ (xs ys : List ℤ) : ℤ :=
  (List.zipWith (· * ·) xs ys).sum

/-- Modelled from the spec: `data.Matrix.MulVec`, the standard
matrix-vector product; it fails when the dimensions do not agree. -/
def matVecMul (m : List (List ℤ)) (v : List ℤ) : Option (List ℤ) :=
  if m.all (fun row => row.length = v.length) then
    some (m.map (fun row => dotZ row v))
  else
    none

/-- Modelled from the spec: `data.Matrix.Transpose`. -/
def transposeZ (m : List (List ℤ)) : List (List ℤ) :=
  (List.range (m.headD []).length).map (fun j => m.map (fun row => row.getD j 0))

/-- Modelled from the spec: `data.Vector.MulAsPolyInRing`, the negacyclic
convolution in Z[x]/(x^n+1): `c_k = Σ_{i+j ≡ k (mod n)} sign · a_i · b_j`
with `sign = +1` if `i+j < n` and `−1` otherwise (§4.2).  Fails when the
two vectors have different lengths. -/
def mulAsPolyInRing (a b : List ℤ) : Option (List ℤ) :=
  if a.length = b.length then
    some ((List.range a.length).map (fun k =>
      ((List.range a.length).map (fun i =>
        ((List.range a.length).map (fun j =>
          if (i + j) % a.length = k then
            (if i + j < a.length then a.getD i 0 * b.getD j 0
             else -(a.getD i 0 * b.getD j 0))
          else 0)).sum)).sum))
  else
    none

/-- Modelled from the spec: `data.Vector.CheckBound` — accepts exactly the
vectors all of whose coordinates have absolute value at most `bound`
(boundary behaviour from §8: entries at exactly `±B` accepted, `±(B+1)`
rejected). -/
def checkBoundVec (v : List ℤ) (bound : ℤ) : Bool :=
  v.all (fun x => decide (|x| ≤ bound))

/-- Modelled from the spec: `data.Matrix.CheckBound`, elementwise. -/
def checkBoundMat (m : List (List ℤ)) (bound : ℤ) : Bool :=
  m.all (fun row => checkBoundVec row bound)

/-- Modelled from the spec: `data.Matrix.CheckDims` — the matrix has the
given number of rows and every row the given number of columns. -/
def checkDims (m : List (List ℤ)) (rows cols : ℕ) : Bool :=
  decide (m.length = rows) && m.all (fun row => row.length = cols)

/-! ## Ring-LWE scheme (`simple` package, `ring_lwe.go`) -/

/-- `RingLWEParams` from the source.  The Gaussian widths `Sigma1`,
`Sigma2`, `Sigma3` are `big.Float` values used only by the samplers; being
floating point they are outside the embedding and are omitted here. -/
structure RingLWEParams where
  l : ℕ
  n : ℕ
  boundX : ℤ
  boundY : ℤ
  p : ℤ
  q : ℤ
  a : List ℤ
deriving Repr, DecidableEq

/-- `RingLWE` from the source: a scheme instance carrying its parameters. -/
structure RingLWE where
  params : RingLWEParams
deriving Repr, DecidableEq

/-- The `N` selected by the search loop of `NewRingLWE`: the loop tries
`pow = 6, …, 19`, breaking at the first power whose lattice-cost check
reports `safe`; when no power is safe the loop simply runs out, leaving
`pow = 19`.  The float lattice-cost check is abstracted as the oracle
`safe` (a function of `n`; `sec`, `l` and the bounds are fixed during one
call). -/
def chosenPow (safe : ℕ → Bool) : ℕ :=
  (((List.range' 6 14).find? (fun pow => safe (2 ^ pow))).getD 19)

/-- `NewRingLWE` from the source.  `K = 2·l·B_x·B_y` is exact integer
arithmetic; the `big.Float` computation of `⌊q_f⌋` for a given `n` is
abstracted as the oracle `qFloor`, and the float lattice-cost check as
`safe`.  The uniform sampling of the public polynomial `A` is injected as
`avec` (a function of the selected `n`); RNG failure is outside the model.
Note that after the search loop the source never consults the final value
of its `safe` flag: it unconditionally builds and returns the scheme. -/
def newRingLWE (sec l : ℕ) (boundX boundY : ℤ) (safe : ℕ → Bool)
    (qFloor : ℕ → ℤ) (avec : ℕ → List ℤ) : Except String RingLWE :=
  let _ := sec -- sec enters only through the float quantities behind `safe` and `qFloor`
  let K : ℤ := boundX * boundY * (2 * (l : ℤ))
  let n : ℕ := 2 ^ chosenPow safe
  let q : ℤ := qFloor n * K
  Except.ok
    { params :=
      { l := l, n := n, boundX := boundX, boundY := boundY,
        p := K, q := q, a := avec n } }

/-- `center` from the source: `t(x) = ⌊x·q/p⌋ % q`, elementwise on a
matrix (`big.Int.Div`/`Mod` are Euclidean). -/
def center (s : RingLWE) (X : List (List ℤ)) : List (List ℤ) :=
  X.map (fun row => row.map (fun x =>
    ((x * s.params.q).ediv s.params.p).emod s.params.q))

/-- `RingLWE.Encrypt` from the source, with the Gaussian samples `r`
(length `N`, width σ₂), `E` (`L×N`, width σ₃) and `e` (length `N`, width
σ₂) injected. -/
def ringEncrypt (s : RingLWE) (X PK : List (List ℤ))
    (r : List ℤ) (E : List (List ℤ)) (e : List ℤ) :
    Except String (List (List ℤ)) :=
  if ¬ checkBoundMat X s.params.boundX then .error "bound exceeded"
  else if ¬ checkDims PK s.params.l s.params.n then .error "malformed public key"
  else if ¬ checkDims X s.params.l s.params.n then .error "malformed input"
  else
    let CT0 := (List.range s.params.l).map (fun i =>
      List.zipWith (· + ·) ((mulAsPolyInRing (PK.getD i []) r).getD [])
        (E.getD i []))
    let CT0 := CT0.map (fun row => row.map (fun x => x.emod s.params.q))
    let T := center s X
    let CT0 := List.zipWith (fun r1 r2 => List.zipWith (· + ·) r1 r2) CT0 T
    let CT0 := CT0.map (fun row => row.map (fun x => x.emod s.params.q))
    let ct1 := List.zipWith (· + ·) ((mulAsPolyInRing s.params.a r).getD []) e
    let ct1 := ct1.map (fun x => x.emod s.params.q)
    .ok (CT0 ++ [ct1])

/-- `RingLWE.Decrypt` from the source. -/
def ringDecrypt (s : RingLWE) (CT : List (List ℤ)) (skY y : List ℤ) :
    Except String (List ℤ) :=
  if ¬ checkBoundVec y s.params.boundY then .error "bound exceeded"
  else if skY.length ≠ s.params.n then .error "malformed decryption key"
  else if y.length ≠ s.params.l then .error "malformed input"
  else if ¬ checkDims CT (s.params.l + 1) s.params.n then .error "malformed cipher"
  else
    let CT0 := CT.take s.params.l
    let ct1 := CT.getD s.params.l []
    let t := (matVecMul (transposeZ CT0) y).getD []
    let t := t.map (fun x => x.emod s.params.q)
    let m := ((mulAsPolyInRing ct1 skY).getD []).map (fun x => -x)
    let d := List.zipWith (· + ·) t m
    let d := d.map (fun x => x.emod s.params.q)
    let halfQ := s.params.q.ediv 2
    .ok (d.map (fun x =>
      let x := if halfQ < x then x - s.params.q else x
      (x * s.params.p + halfQ).ediv s.params.q))

/-- Written from the spec's words (claim C4): the decryption formula
`d = (C0ᵀ·y − c1 ⊛ sk_y) mod Q`, followed by centre-lifting each
coordinate above `⌊Q/2⌋` and the final rounding
`⌊(dᵢ·P + ⌊Q/2⌋)/Q⌋` (floor division written `Int.fdiv`). -/
def ringDecryptSpec (s : RingLWE) (CT : List (List ℤ)) (skY y : List ℤ) :
    List ℤ :=
  let CT0 := CT.take s.params.l
  let ct1 := CT.getD s.params.l []
  let d := (List.zipWith (· - ·) ((matVecMul (transposeZ CT0) y).getD [])
    ((mulAsPolyInRing ct1 skY).getD [])).map (fun x => x.emod s.params.q)
  let halfQ := s.params.q.fdiv 2
  d.map (fun x =>
    let x := if halfQ < x then x - s.params.q else x
    (x * s.params.p + halfQ).fdiv s.params.q)

/-- Written from the spec's words (claim C5): row `i < L` of the
ciphertext is `(PK_i ⊛ r + E_i + T_i) mod Q` with `T = center(X)`, and the
last row is `(A ⊛ r + e) mod Q`. -/
def ringEncryptSpec (s : RingLWE) (X PK : List (List ℤ))
    (r : List ℤ) (E : List (List ℤ)) (e : List ℤ) : List (List ℤ) :=
  ((List.range s.params.l).map (fun i =>
    (List.zipWith (· + ·)
      (List.zipWith (· + ·) ((mulAsPolyInRing (PK.getD i []) r).getD [])
        (E.getD i []))
      (((center s X).getD i []))).map (fun x => x.emod s.params.q)))
  ++ [(List.zipWith (· + ·) ((mulAsPolyInRing s.params.a r).getD [])
        e).map (fun x => x.emod s.params.q)]

/-! ## Helper lemmas for the Ring-LWE proofs -/

theorem fdiv_eq_ediv_of_nonneg (a b : ℤ) (hb : 0 ≤ b) : a.fdiv b = a.ediv b :=
  Int.fdiv_eq_ediv a hb

theorem mulAsPolyInRing_getD_length (a b : List ℤ) (h : a.length = b.length) :
    ((mulAsPolyInRing a b).getD []).length = a.length := by
  simp [mulAsPolyInRing, h]

theorem zip_emod_left (q : ℤ) :
    ∀ (a t : List ℤ),
      (List.zipWith (· + ·) (a.map (fun x => x.emod q)) t).map (fun x => x.emod q) =
        (List.zipWith (· + ·) a t).map (fun x => x.emod q) := by
  intro a
  induction a with
  | nil => intro t; simp
  | cons x xs ih =>
    intro t
    cases t with
    | nil => simp
    | cons y ys =>
      simp only [List.map_cons, List.zipWith_cons_cons, ih ys]
      congr 1
      exact Int.emod_add_emod x q y

theorem zip_emod_sub (q : ℤ) :
    ∀ (t m : List ℤ),
      (List.zipWith (· + ·) (t.map (fun x => x.emod q)) (m.map (fun x => -x))).map
          (fun x => x.emod q) =
        (List.zipWith (· - ·) t m).map (fun x => x.emod q) := by
  intro t
  induction t with
  | nil => intro m; simp
  | cons x xs ih =>
    intro m
    cases m with
    | nil => simp
    | cons y ys =>
      simp only [List.map_cons, List.zipWith_cons_cons, ih ys]
      congr 1
      have h1 : (x.emod q + -y).emod q = (x + -y).emod q := Int.emod_add_emod x q (-y)
      rw [h1, Int.sub_eq_add_neg]

/-! ## Claim C1 -/

/-- C1: The claim states that when no `N ∈ {2^6, …, 2^19}` passes the
lattice-cost check, `NewRingLWE` returns a `ParameterSearchFailure` error
and no scheme.  The source does the opposite: after the search loop it
never consults its `safe` flag, and unconditionally returns a scheme
instance whose `N` is the last power tried, `2^19`, with
`Q = ⌊q_f(2^19)⌋·K`.  This theorem evaluates the code under an
all-unsafe lattice-cost oracle and shows a scheme (not an error) is
returned. -/
theorem C1_no_safe_N_still_returns_scheme (sec l : ℕ) (boundX boundY : ℤ)
    (safe : ℕ → Bool) (qFloor : ℕ → ℤ) (avec : ℕ → List ℤ)
    (hallfail : ∀ pow, 6 ≤ pow → pow < 20 → safe (2 ^ pow) = false) :
    newRingLWE sec l boundX boundY safe qFloor avec =
      Except.ok
        { params :=
          { l := l, n := 2 ^ 19, boundX := boundX, boundY := boundY,
            p := boundX * boundY * (2 * (l : ℤ)),
            q := qFloor (2 ^ 19) * (boundX * boundY * (2 * (l : ℤ))),
            a := avec (2 ^ 19) } } := by
  have hfind : (List.range' 6 14).find? (fun pow => safe (2 ^ pow)) = none := by
    rw [List.find?_eq_none]
    intro x hx
    have hx' : 6 ≤ x ∧ x < 20 := by
      have := List.mem_range'_1.mp hx
      omega
    simp [hallfail x hx'.1 hx'.2]
  have hpow : chosenPow safe = 19 := by
    rw [chosenPow, hfind]
    rfl
  rw [newRingLWE]
  simp only [hpow]

/-- Witness for C1 at a concrete input: `sec = 128`, `l = 1`,
`B_x = B_y = 1`, the all-false lattice-cost oracle, `⌊q_f⌋ ≡ 1`. -/
theorem C1_no_safe_N_still_returns_scheme_witness :
    newRingLWE 128 1 1 1 (fun _ => false) (fun _ => 1) (fun _ => ([] : List ℤ)) =
      Except.ok
        { params :=
          { l := 1, n := 2 ^ 19, boundX := 1, boundY := 1,
            p := 2, q := 2, a := ([] : List ℤ) } } := by
  have h := C1_no_safe_N_still_returns_scheme 128 1 1 1 (fun _ => false)
    (fun _ => 1) (fun _ => ([] : List ℤ)) (fun _ _ _ => rfl)
  simpa using h

/-! ## Claim C4 -/

/-- C4: For every ciphertext of the right dimensions, derived key of
length `N` and in-bound query `y` of length `L`, `RingLWE.Decrypt`
succeeds and returns exactly the vector described by the specification:
`d = (C0ᵀ·y − c1 ⊛ sk_y) mod Q`, then per coordinate the centre lift past
`⌊Q/2⌋` followed by `⌊(dᵢ·P + ⌊Q/2⌋)/Q⌋`. -/
theorem C4_ring_decrypt_formula (s : RingLWE) (CT : List (List ℤ))
    (skY y : List ℤ)
    (hq : 0 < s.params.q)
    (hy : ∀ c ∈ y, |c| ≤ s.params.boundY)
    (hsk : skY.length = s.params.n)
    (hyl : y.length = s.params.l)
    (hct : CT.length = s.params.l + 1)
    (hctr : ∀ row ∈ CT, row.length = s.params.n) :
    ringDecrypt s CT skY y = Except.ok (ringDecryptSpec s CT skY y) := by
  have hb : checkBoundVec y s.params.boundY = true := by
    simp only [checkBoundVec, List.all_eq_true, decide_eq_true_eq]
    exact hy
  have hd : checkDims CT (s.params.l + 1) s.params.n = true := by
    simp only [checkDims, List.all_eq_true, decide_eq_true_eq, Bool.and_eq_true]
    exact ⟨hct, hctr⟩
  rw [ringDecrypt, ringDecryptSpec]
  simp only [hb, hsk, hd, hyl, not_true, Bool.not_true]
  rw [if_neg (by simp), if_neg (by simp), if_neg (by simp), if_neg (by simp)]
  rw [zip_emod_sub]
  congr 1
  apply List.map_congr_left
  intro x _
  have h2 : s.params.q.fdiv 2 = s.params.q.ediv 2 :=
    fdiv_eq_ediv_of_nonneg _ 2 (by omega)
  rw [h2]
  rw [fdiv_eq_ediv_of_nonneg _ _ (le_of_lt hq)]

/-- Witness for C4: a concrete scheme with `L = 1`, `N = 2`, `Q = 10`,
`P = 4`, ciphertext `[[3, 7], [2, 9]]`, key `[1, 1]`, query `[2]`. -/
theorem C4_ring_decrypt_formula_witness :
    ringDecrypt
      { params := { l := 1, n := 2, boundX := 3, boundY := 3, p := 4, q := 10,
                    a := [1, 2] } }
      [[3, 7], [2, 9]] [1, 1] [2] =
      Except.ok
        (ringDecryptSpec
          { params := { l := 1, n := 2, boundX := 3, boundY := 3, p := 4, q := 10,
                        a := [1, 2] } }
          [[3, 7], [2, 9]] [1, 1] [2]) := by
  apply C4_ring_decrypt_formula
  · decide
  · decide
  · rfl
  · rfl
  · rfl
  · decide

/-! ## Claim C5 -/

theorem zipWith_rangeMap_emod (q : ℤ) (n : ℕ) (g : ℕ → List ℤ)
    (T : List (List ℤ)) (hT : T.length = n) :
    (List.zipWith (fun r1 r2 => List.zipWith (· + ·) r1 r2)
        (((List.range n).map g).map (fun row => row.map (fun x => x.emod q)))
        T).map (fun row => row.map (fun x => x.emod q)) =
      (List.range n).map (fun i =>
        (List.zipWith (· + ·) (g i) (T.getD i [])).map (fun x => x.emod q)) := by
  apply List.ext_getElem
  · simp [hT]
  · intro i h1 h2
    simp only [List.getElem_map, List.getElem_zipWith, List.getElem_range]
    have hi : i < T.length := by
      simp at h2
      omega
    rw [List.getD_eq_getElem T [] hi]
    exact zip_emod_left q (g i) T[i]

/-- C5: On an in-bound `L×N` plaintext and an `L×N` public key, with
the Gaussian draws `r`, `E`, `e` injected, `RingLWE.Encrypt` succeeds and
returns exactly the `(L+1)×N` matrix described by the specification: row
`i < L` is `(PK_i ⊛ r + E_i + center(X)_i) mod Q` and the last row is
`(A ⊛ r + e) mod Q`, with every entry in `[0, Q)`. -/
theorem C5_ring_encrypt_formula (s : RingLWE) (X PK : List (List ℤ))
    (r : List ℤ) (E : List (List ℤ)) (e : List ℤ)
    (hq : 0 < s.params.q)
    (hXb : ∀ row ∈ X, ∀ x ∈ row, |x| ≤ s.params.boundX)
    (hXl : X.length = s.params.l) (hXr : ∀ row ∈ X, row.length = s.params.n)
    (hPKl : PK.length = s.params.l) (hPKr : ∀ row ∈ PK, row.length = s.params.n)
    (hr : r.length = s.params.n)
    (hEl : E.length = s.params.l) (hEr : ∀ row ∈ E, row.length = s.params.n)
    (he : e.length = s.params.n) (ha : s.params.a.length = s.params.n) :
    ringEncrypt s X PK r E e = Except.ok (ringEncryptSpec s X PK r E e) ∧
    (ringEncryptSpec s X PK r E e).length = s.params.l + 1 ∧
    (∀ row ∈ ringEncryptSpec s X PK r E e, row.length = s.params.n) ∧
    (∀ row ∈ ringEncryptSpec s X PK r E e, ∀ x ∈ row,
      0 ≤ x ∧ x < s.params.q) := by
  have hxb : checkBoundMat X s.params.boundX = true := by
    simp only [checkBoundMat, checkBoundVec, List.all_eq_true, decide_eq_true_eq]
    exact hXb
  have hdPK : checkDims PK s.params.l s.params.n = true := by
    simp only [checkDims, List.all_eq_true, decide_eq_true_eq, Bool.and_eq_true]
    exact ⟨hPKl, hPKr⟩
  have hdX : checkDims X s.params.l s.params.n = true := by
    simp only [checkDims, List.all_eq_true, decide_eq_true_eq, Bool.and_eq_true]
    exact ⟨hXl, hXr⟩
  have hTlen : (center s X).length = s.params.l := by
    simp [center, hXl]
  refine ⟨?_, ?_, ?_, ?_⟩
  · rw [ringEncrypt, ringEncryptSpec]
    rw [if_neg (by simp [hxb]), if_neg (by simp [hdPK]), if_neg (by simp [hdX])]
    dsimp only
    rw [zipWith_rangeMap_emod s.params.q s.params.l _ (center s X) hTlen]
  · simp [ringEncryptSpec]
  · intro row hrow
    rw [ringEncryptSpec] at hrow
    rcases List.mem_append.mp hrow with hmem | hmem
    · rcases List.mem_map.mp hmem with ⟨i, hi, hrow'⟩
      have hil : i < s.params.l := List.mem_range.mp hi
      have hPKi : (PK.getD i []).length = s.params.n := by
        have : i < PK.length := by omega
        rw [List.getD_eq_getElem PK [] this]
        exact hPKr _ (List.getElem_mem this)
      have hEi : (E.getD i []).length = s.params.n := by
        have : i < E.length := by omega
        rw [List.getD_eq_getElem E [] this]
        exact hEr _ (List.getElem_mem this)
      have hTi : ((center s X).getD i []).length = s.params.n := by
        have hix : i < (center s X).length := by omega
        rw [List.getD_eq_getElem _ [] hix]
        simp only [center]
        have hix' : i < X.length := by simp [center] at hix; omega
        simp only [List.getElem_map, List.length_map]
        exact hXr _ (List.getElem_mem hix')
      have hpoly : ((mulAsPolyInRing (PK.getD i []) r).getD []).length =
          s.params.n := by
        rw [mulAsPolyInRing_getD_length _ _ (by omega)]
        omega
      rw [← hrow']
      simp only [List.length_map, List.length_zipWith, hpoly, hEi, hTi]
      omega
    · have : row = (List.zipWith (· + ·)
          ((mulAsPolyInRing s.params.a r).getD []) e).map
            (fun x => x.emod s.params.q) := by
        simpa using hmem
      subst this
      have hpoly : ((mulAsPolyInRing s.params.a r).getD []).length =
          s.params.n := by
        rw [mulAsPolyInRing_getD_length _ _ (by omega)]
        omega
      simp [hpoly, he]
  · intro row hrow x hx
    rw [ringEncryptSpec] at hrow
    have hx' : ∃ y : ℤ, x = y.emod s.params.q := by
      rcases List.mem_append.mp hrow with hmem | hmem
      · rcases List.mem_map.mp hmem with ⟨i, _, hrow'⟩
        rw [← hrow'] at hx
        rcases List.mem_map.mp hx with ⟨y, _, hy⟩
        exact ⟨y, hy.symm⟩
      · have : row = (List.zipWith (· + ·)
            ((mulAsPolyInRing s.params.a r).getD []) e).map
              (fun x => x.emod s.params.q) := by
          simpa using hmem
        subst this
        rcases List.mem_map.mp hx with ⟨y, _, hy⟩
        exact ⟨y, hy.symm⟩
    rcases hx' with ⟨y, rfl⟩
    exact ⟨Int.emod_nonneg y (by omega), Int.emod_lt_of_pos y hq⟩

/-- Witness for C5: `L = 1`, `N = 2`, `Q = 10`, `P = 4`,
`X = [[1, 2]]`, `PK = [[0, 3]]`, `r = [1, 0]`, `E = [[1, 1]]`,
`e = [0, 1]`. -/
theorem C5_ring_encrypt_formula_witness :
    ringEncrypt
        { params := { l := 1, n := 2, boundX := 3, boundY := 3, p := 4, q := 10,
                      a := [1, 2] } }
        [[1, 2]] [[0, 3]] [1, 0] [[1, 1]] [0, 1] =
      Except.ok
        (ringEncryptSpec
          { params := { l := 1, n := 2, boundX := 3, boundY := 3, p := 4, q := 10,
                        a := [1, 2] } }
          [[1, 2]] [[0, 3]] [1, 0] [[1, 1]] [0, 1]) :=
  (C5_ring_encrypt_formula
    { params := { l := 1, n := 2, boundX := 3, boundY := 3, p := 4, q := 10,
                  a := [1, 2] } }
    [[1, 2]] [[0, 3]] [1, 0] [[1, 1]] [0, 1]
    (by decide) (by decide) rfl (by decide) rfl (by decide) rfl rfl
    (by decide) rfl rfl).1

/-! ## MA-ABE scheme (`abe` package, `ma-abe.go`)

The bn256 bilinear group is external to the repository ("assumed available
as `G1`, `G2`, `GT`, `pair`, `hashToG1`", spec §1).  The embedding is
generic in the group order `p` and represents group elements by their
discrete logarithms in `ZMod p` with respect to the fixed generators;
`ScalarMult` becomes multiplication by the scalar and `Pair` the product
of the two logarithms. -/

/-- `MAABE` from the source: the global parameters.  `P` is the group
order, carried as the type index `p`. -/
structure MAABE (p : ℕ) where
  g1 : ZMod p
  g2 : ZMod p
  gt : ZMod p

/-- bn256 `Pair` in the exponent embedding. -/
def pairE {p : ℕ} (x y : ZMod p) : ZMod p := x * y

/-- bn256 `ScalarMult` in the exponent embedding (the source only calls
it with non-negative scalars). -/
def scalarMult {p : ℕ} (base : ZMod p) (k : ℤ) : ZMod p := (k : ZMod p) * base

/-- `NewMAABE` from the source: both generators are `ScalarBaseMult 1`
and `gt = Pair(g1, g2)`. -/
def newMAABE (p : ℕ) : MAABE p := { g1 := 1, g2 := 1, gt := pairE 1 1 }

/-- The sign-guarded scalar multiplication of `Encrypt` ("negative numbers
do not play well with ScalarMult"): a negative scalar negates the base and
uses the absolute value. -/
def signedScalarMult {p : ℕ} (base : ZMod p) (k : ℤ) : ZMod p :=
  if 0 ≤ k then scalarMult base k else scalarMult (-base) (-k)

/-- `MSP` (monotone span program) as used by `ma-abe.go`. -/
structure MSP where
  mat : List (List ℤ)
  rowToAttrib : List String
deriving DecidableEq

/-- `MAABEPubKey` from the source; the Go maps keyed by attribute strings
become `Option`-valued functions. -/
structure MAABEPubKey (p : ℕ) where
  attribs : List String
  eggToAlpha : String → Option (ZMod p)
  gToY : String → Option (ZMod p)

/-- `MAABESecKey` from the source. -/
structure MAABESecKey (p : ℕ) where
  attribs : List String
  alpha : String → Option (ZMod p)
  y : String → Option (ZMod p)

/-- `MAABEAuth` from the source (the `Maabe` pointer is always present in
the embedding, so the source's nil checks cannot fire). -/
structure MAABEAuth (p : ℕ) where
  id : String
  maabe : MAABE p
  pk : MAABEPubKey p
  sk : MAABESecKey p

/-- `MAABECipher` from the source. -/
structure MAABECipher (p : ℕ) where
  c0 : ZMod p
  c1x : String → Option (ZMod p)
  c2x : String → Option (ZMod p)
  c3x : String → Option (ZMod p)
  msp : MSP
  symEnc : List ℕ
  iv : List ℕ

/-- `MAABEKey` from the source: an attribute key issued to a user. -/
structure MAABEKey (p : ℕ) where
  gid : String
  attrib : String
  key : ZMod p
deriving DecidableEq

/-- Go-map built by the loop `for i, at := range ats { m[at] = vals[i] }`:
later insertions shadow earlier ones. -/
def buildMap {α : Type} : List String → List α → String → Option α
  | [], _, _ => none
  | _ :: _, [], _ => none
  | a :: ats, x :: xs, key =>
    match buildMap ats xs key with
    | some v => some v
    | none => if key = a then some x else none

/-- Pointwise update of a Go map. -/
def mapUpd {α : Type} (m : String → Option α) (key : String) (v : α) :
    String → Option α :=
  fun x => if x = key then some v else m x

/-- The duplicate-attribute check of `Encrypt`: the loop marks each
attribute of `rowToAttrib` as seen and fails when one repeats, i.e. it
succeeds exactly on lists of pairwise distinct attributes. -/
def noRepeats : List String → Bool
  | [] => true
  | a :: rest => !(rest.contains a) && noRepeats rest

/-- The public-key search of `Encrypt`: the first supplied public key
whose `EggToAlpha` map knows the attribute. -/
def findPK {p : ℕ} (pks : List (MAABEPubKey p)) (a : String) :
    Option (MAABEPubKey p) :=
  pks.find? (fun pk => (pk.eggToAlpha a).isSome)

/-- The ciphertext-component loop of `Encrypt`: for each attribute of
`rowToAttrib` in order, find a public key knowing it (else fail) and
extend the three component maps with
`C1 = gt^λ · (egg^α)^r`, `C2 = g2^r`, `C3 = (g2^y)^r · g2^ω`. -/
def encLoop {p : ℕ} (a : MAABE p) (pks : List (MAABEPubKey p))
    (lambda omega r : String → Option ℤ) :
    List String → (String → Option (ZMod p)) → (String → Option (ZMod p)) →
    (String → Option (ZMod p)) →
    Except String ((String → Option (ZMod p)) × (String → Option (ZMod p)) ×
      (String → Option (ZMod p)))
  | [], c1, c2, c3 => .ok (c1, c2, c3)
  | att :: rest, c1, c2, c3 =>
    match findPK pks att with
    | none => .error "attribute not found in any pubkey"
    | some pk =>
      let tmpLambda := signedScalarMult a.gt ((lambda att).getD 0)
      let tmpOmega := signedScalarMult a.g2 ((omega att).getD 0)
      let c1v := tmpLambda + scalarMult ((pk.eggToAlpha att).getD 0) ((r att).getD 0)
      let c2v := scalarMult a.g2 ((r att).getD 0)
      let c3v := scalarMult ((pk.gToY att).getD 0) ((r att).getD 0) + tmpOmega
      encLoop a pks lambda omega r rest
        (mapUpd c1 att c1v) (mapUpd c2 att c2v) (mapUpd c3 att c3v)

/-- `MAABE.Encrypt` from the source.  AES-CBC and SHA-256 are external
primitives, supplied as `encCBC` and `shaFn` (`shaFn` composes the
serialization of the `GT` session key with SHA-256); the session key, the
IV and the uniform vectors `v`, `w`, `rI` are the injected randomness.
Messages are Go strings, i.e. byte lists. -/
def maEncrypt {p : ℕ} (a : MAABE p)
    (shaFn : ZMod p → List ℕ) (encCBC : List ℕ → List ℕ → List ℕ → List ℕ)
    (symKey : ZMod p) (iv : List ℕ) (v w rI : List ℤ)
    (msg : List ℕ) (msp : MSP) (pks : List (MAABEPubKey p)) :
    Except String (MAABECipher p) :=
  if msp.mat.length = 0 ∨ (msp.mat.headD []).length = 0 then
    .error "empty msp matrix"
  else if ¬ noRepeats msp.rowToAttrib then
    .error "some attributes correspond to multiple rows of the MSP struct, the scheme is not secure"
  else if msg.length = 0 then
    .error "message cannot be empty"
  else
    let keyCBC := shaFn symKey
    let padLen := 16 - msg.length % 16
    let msgPad := msg ++ List.replicate padLen padLen
    let symEnc := encCBC keyCBC iv msgPad
    let s := v.getD 0 0
    match matVecMul msp.mat v with
    | none => .error "malformed input"
    | some lambdaI =>
      if lambdaI.length ≠ msp.mat.length then .error "wrong lambda len"
      else
        let lambda := buildMap msp.rowToAttrib lambdaI
        match matVecMul msp.mat (w.set 0 0) with
        | none => .error "malformed input"
        | some omegaI =>
          if omegaI.length ≠ msp.mat.length then .error "wrong omega len"
          else
            let omega := buildMap msp.rowToAttrib omegaI
            let c0 := symKey + scalarMult a.gt s
            let r := buildMap msp.rowToAttrib rI
            match encLoop a pks lambda omega r msp.rowToAttrib
                (fun _ => none) (fun _ => none) (fun _ => none) with
            | .error e => .error e
            | .ok (c1, c2, c3) =>
              .ok { c0 := c0, c1x := c1, c2x := c2, c3x := c3, msp := msp,
                    symEnc := symEnc, iv := iv }

/-- The per-attribute loop of `GenerateAttribKeys`: for each requested
attribute held by the authority, `k = g1^α · H(gid)^y`; fail on an
attribute not in the secret-key maps. -/
def keysLoop {p : ℕ} (auth : MAABEAuth p) (hash : ZMod p) (gid : String) :
    List String → Except String (List (MAABEKey p))
  | [] => .ok []
  | att :: rest =>
    if (auth.sk.alpha att).isSome && (auth.sk.y att).isSome then
      match keysLoop auth hash gid rest with
      | .error e => .error e
      | .ok ks =>
        .ok ({ gid := gid, attrib := att,
               key := (auth.sk.alpha att).getD 0 * auth.maabe.g1 +
                 (auth.sk.y att).getD 0 * hash } :: ks)
    else .error "attribute not found in secret key"

/-- `GenerateAttribKeys` from the source.  `HashG1` is the external group
hash, supplied as `hashG1` (in the exponent embedding it returns the
discrete log of the hash point). -/
def generateAttribKeys {p : ℕ} (auth : MAABEAuth p)
    (hashG1 : String → ZMod p) (gid : String) (attribs : List String) :
    Except String (List (MAABEKey p)) :=
  if gid.length = 0 then .error "GID cannot be empty"
  else if attribs.length = 0 then .error "attribute cannot be empty"
  else keysLoop auth (hashG1 gid) gid attribs

/-- The `aToK` map of `Decrypt`: attribute → key, later keys shadowing
earlier ones. -/
def keyFor {p : ℕ} (ks : List (MAABEKey p)) : String → Option (MAABEKey p) :=
  buildMap (ks.map MAABEKey.attrib) ks

/-- The rows and attributes of the ciphertext's MSP for which a key is
present (`goodMatRows`/`goodAttribs` of `Decrypt`), as row/attribute
pairs in MSP row order. -/
def goodPairs {p : ℕ} (msp : MSP) (ks : List (MAABEKey p)) :
    List (List ℤ × String) :=
  (msp.mat.zip msp.rowToAttrib).filter (fun rt => (keyFor ks rt.2).isSome)

/-- Modelled from the spec: `data.NewMatrix` accepts a list of rows
exactly when they all have the same length. -/
def isRect (m : List (List ℤ)) : Bool :=
  m.all (fun row => row.length = (m.headD []).length)

/-- The intermediate-value loop of `Decrypt`:
`E_a = C1_a · pair(H(gid), C3_a) · pair(K_a, C2_a)^{−1}`, failing when a
good attribute is missing from the ciphertext maps. -/
def eggLambdaLoop {p : ℕ} (hash : ZMod p) (ct : MAABECipher p)
    (aToK : String → Option (MAABEKey p)) :
    List String → (String → Option (ZMod p)) →
    Except String (String → Option (ZMod p))
  | [], m => .ok m
  | att :: rest, m =>
    if (ct.c1x att).isSome && (ct.c2x att).isSome && (ct.c3x att).isSome then
      let num := (ct.c1x att).getD 0 + pairE hash ((ct.c3x att).getD 0)
      let den := -(pairE ((aToK att).getD { gid := "", attrib := "", key := 0 }).key
        ((ct.c2x att).getD 0))
      eggLambdaLoop hash ct aToK rest (mapUpd m att (num + den))
    else .error ("attribute " ++ att ++ " not in ciphertext dicts")

/-- The reconstruction loop of `Decrypt`: `Σ_a c_a · E_a`, with the
sign-guarded scalar multiplication on negative coefficients. -/
def eggsLoop {p : ℕ} (cx : String → Option ℤ)
    (eggLambda : String → Option (ZMod p)) :
    List String → ZMod p → Except String (ZMod p)
  | [], acc => .ok acc
  | att :: rest, acc =>
    match eggLambda att with
    | some el =>
      let c := (cx att).getD 0
      eggsLoop cx eggLambda rest
        (if 0 < c then acc + scalarMult el c
         else if c < 0 then acc + scalarMult (-el) (-c)
         else acc)
    | none => .error "missing intermediate result"

/-- The PKCS#7 unpadding step at the end of `Decrypt`: read the last byte
as the pad length, fail when it exceeds the data length, else strip that
many bytes (`len(msgPad) − padLen` is Go `int` arithmetic, hence the
integer subtraction). -/
def unpadStep (msgPad : List ℕ) : Except String (List ℕ) :=
  let padLen : ℤ := (msgPad.getLastD 0 : ℤ)
  if (msgPad.length : ℤ) - padLen < 0 then .error "failed to decrypt"
  else .ok (msgPad.take (((msgPad.length : ℤ) - padLen).toNat))

/-- `MAABE.Decrypt` from the source.  `hashG1` is the external group
hash; `solver` models `data.GaussianEliminationSolver` (spec §4.2: returns
some solution of `A·x = b mod p`, else fails); `shaFn` and `decCBC` model
the external SHA-256 key derivation and AES-CBC decryption. -/
def maDecrypt {p : ℕ} (a : MAABE p)
    (hashG1 : String → ZMod p)
    (solver : List (List ℤ) → List ℤ → ℕ → Option (List ℤ))
    (shaFn : ZMod p → List ℕ) (decCBC : List ℕ → List ℕ → List ℕ → List ℕ)
    (ct : MAABECipher p) (ks : List (MAABEKey p)) :
    Except String (List ℕ) :=
  match ks with
  | [] => .error "empty set of attribute keys"
  | k0 :: _ =>
    let gid := k0.gid
    if ks.any (fun k => k.gid != gid) then .error "not all GIDs are the same"
    else
      let hash := hashG1 gid
      let aToK := keyFor ks
      let good := goodPairs ct.msp ks
      let goodMatRows := good.map Prod.fst
      let goodAttribs := good.map Prod.snd
      if ¬ isRect goodMatRows then .error "malformed input"
      else
        let goodCols := (goodMatRows.headD []).length
        let one := (List.replicate goodCols (0 : ℤ)).set 0 1
        match solver (transposeZ goodMatRows) one p with
        | none => .error "no solution"
        | some c =>
          let cx := buildMap goodAttribs c
          match eggLambdaLoop hash ct aToK goodAttribs (fun _ => none) with
          | .error e => .error e
          | .ok eggLambda =>
            match eggsLoop cx eggLambda goodAttribs 0 with
            | .error e => .error e
            | .ok eggs =>
              let symKey := ct.c0 + (-eggs)
              let keyCBC := shaFn symKey
              let msgPad := decCBC keyCBC ct.iv ct.symEnc
              unpadStep msgPad

/-! ## Helper lemmas for the MA-ABE proofs -/

theorem noRepeats_iff (l : List String) : noRepeats l = true ↔ l.Nodup := by
  induction l with
  | nil => simp [noRepeats]
  | cons a rest ih =>
    simp [noRepeats, ih, List.nodup_cons]

theorem signedScalarMult_eq {p : ℕ} (base : ZMod p) (k : ℤ) :
    signedScalarMult base k = (k : ZMod p) * base := by
  rw [signedScalarMult, scalarMult, scalarMult]
  split_ifs with h
  · rfl
  · push_cast
    ring

theorem buildMap_eq_none {α : Type} :
    ∀ (ats : List String) (xs : List α) (key : String),
      key ∉ ats → buildMap ats xs key = none := by
  intro ats
  induction ats with
  | nil => intro xs key _; rfl
  | cons a rest ih =>
    intro xs key hk
    cases xs with
    | nil => rfl
    | cons x xs' =>
      simp only [List.mem_cons, not_or] at hk
      simp only [buildMap, ih xs' key hk.2]
      simp [hk.1]

theorem buildMap_zip_mem {α : Type} :
    ∀ (ats : List String) (xs : List α), ats.Nodup → ats.length = xs.length →
      ∀ pr ∈ ats.zip xs, buildMap ats xs pr.1 = some pr.2 := by
  intro ats
  induction ats with
  | nil => intro xs _ _ pr hpr; simp at hpr
  | cons a rest ih =>
    intro xs hnd hlen pr hpr
    cases xs with
    | nil => simp at hlen
    | cons x xs' =>
      simp only [List.zip_cons_cons, List.mem_cons] at hpr
      rcases hpr with rfl | hpr
      · simp only [buildMap,
          buildMap_eq_none rest xs' a (List.nodup_cons.mp hnd).1]
        simp
      · have := ih xs' (List.nodup_cons.mp hnd).2 (by simpa using hlen) pr hpr
        simp only [buildMap, this]

theorem buildMap_isSome {α : Type} :
    ∀ (ats : List String) (xs : List α) (key : String),
      ats.length = xs.length → key ∈ ats → (buildMap ats xs key).isSome := by
  intro ats
  induction ats with
  | nil => intro xs key _ hk; simp at hk
  | cons a rest ih =>
    intro xs key hlen hk
    cases xs with
    | nil => simp at hlen
    | cons x xs' =>
      rcases List.mem_cons.mp hk with rfl | hmem
      · simp only [buildMap]
        cases h : buildMap rest xs' key
        · simp
        · simp
      · have := ih xs' key (by simpa using hlen) hmem
        simp only [buildMap]
        cases h : buildMap rest xs' key
        · rw [h] at this; simp at this
        · simp

theorem buildMap_getD_pos {α : Type} :
    ∀ (ats : List String) (xs : List α) (k : ℕ) (d : String) (dx : α),
      ats.Nodup → ats.length = xs.length → k < ats.length →
      buildMap ats xs (ats.getD k d) = some (xs.getD k dx) := by
  intro ats
  induction ats with
  | nil => intro xs k d dx _ _ hk; simp at hk
  | cons a rest ih =>
    intro xs k d dx hnd hlen hk
    cases xs with
    | nil => simp at hlen
    | cons x xs' =>
      cases k with
      | zero =>
        simp only [List.getD_cons_zero, buildMap,
          buildMap_eq_none rest xs' a (List.nodup_cons.mp hnd).1]
        simp
      | succ k' =>
        simp only [List.getD_cons_succ, buildMap]
        rw [ih xs' k' d dx (List.nodup_cons.mp hnd).2 (by simpa using hlen)
          (by simpa using hk)]

theorem keyFor_some {p : ℕ} :
    ∀ (ks : List (MAABEKey p)) (att : String) (k : MAABEKey p),
      keyFor ks att = some k → k ∈ ks ∧ k.attrib = att := by
  intro ks
  induction ks with
  | nil => intro att k h; simp [keyFor, buildMap] at h
  | cons k0 ks' ih =>
    intro att k h
    simp only [keyFor, List.map_cons, buildMap] at h
    cases h' : buildMap (ks'.map MAABEKey.attrib) ks' att with
    | some v =>
      rw [h'] at h
      simp only at h
      have hv := Option.some.inj h
      subst hv
      have := ih att v h'
      exact ⟨List.mem_cons_of_mem _ this.1, this.2⟩
    | none =>
      rw [h'] at h
      simp only at h
      by_cases he : att = k0.attrib
      · rw [if_pos he] at h
        have hv := Option.some.inj h
        subst hv
        exact ⟨List.mem_cons_self _ _, he.symm⟩
      · rw [if_neg he] at h
        exact absurd h (by simp)

theorem keyFor_isSome_iff {p : ℕ} (ks : List (MAABEKey p)) (att : String) :
    (keyFor ks att).isSome ↔ ∃ k ∈ ks, k.attrib = att := by
  constructor
  · intro h
    obtain ⟨k, hk⟩ := Option.isSome_iff_exists.mp h
    obtain ⟨hm, ha⟩ := keyFor_some ks att k hk
    exact ⟨k, hm, ha⟩
  · rintro ⟨k, hm, ha⟩
    exact buildMap_isSome (ks.map MAABEKey.attrib) ks att (by simp)
      (by exact List.mem_map.mpr ⟨k, hm, ha⟩)

theorem list_map_sum_eq_range {α M : Type} [AddCommMonoid M] (d : α) (f : α → M) :
    ∀ l : List α, (l.map f).sum = ∑ i in Finset.range l.length, f (l.getD i d) := by
  intro l
  induction l with
  | nil => simp
  | cons a l' ih =>
    simp only [List.map_cons, List.sum_cons, List.length_cons, ih]
    rw [Finset.sum_range_succ']
    simp only [List.getD_cons_succ, List.getD_cons_zero]
    rw [add_comm]

theorem dotZ_eq_range (xs ys : List ℤ) :
    dotZ xs ys = ∑ i in Finset.range (min xs.length ys.length),
      xs.getD i 0 * ys.getD i 0 := by
  rw [dotZ]
  induction xs generalizing ys with
  | nil => simp
  | cons x xs' ih =>
    cases ys with
    | nil => simp
    | cons y ys' =>
      simp only [List.zipWith_cons_cons, List.sum_cons, List.length_cons,
        Nat.succ_min_succ, ih ys']
      rw [Finset.sum_range_succ']
      simp only [List.getD_cons_succ, List.getD_cons_zero]
      rw [add_comm]

theorem sum_mul_dot_exchange (K d : ℕ) (cF : ℕ → ℤ) (rowF : ℕ → List ℤ)
    (v : List ℤ) (hrow : ∀ k < K, (rowF k).length = d) (hv : v.length = d) :
    ∑ k in Finset.range K, cF k * dotZ (rowF k) v =
      ∑ j in Finset.range d,
        (∑ k in Finset.range K, cF k * (rowF k).getD j 0) * v.getD j 0 := by
  have h1 : ∀ k ∈ Finset.range K, cF k * dotZ (rowF k) v =
      ∑ j in Finset.range d, cF k * ((rowF k).getD j 0 * v.getD j 0) := by
    intro k hk
    rw [dotZ_eq_range, hrow k (Finset.mem_range.mp hk), hv, min_self,
      Finset.mul_sum]
  rw [Finset.sum_congr rfl h1, Finset.sum_comm]
  apply Finset.sum_congr rfl
  intro j _
  rw [Finset.sum_mul]
  apply Finset.sum_congr rfl
  intro k _
  ring

theorem getLastD_append_right {α : Type} (ys : List α) (hys : ys ≠ []) :
    ∀ (xs : List α) (d : α), (xs ++ ys).getLastD d = ys.getLastD d := by
  intro xs
  induction xs with
  | nil => intro d; rfl
  | cons x xs' ih =>
    intro d
    rw [List.cons_append, List.getLastD_cons, ih x]
    cases ys with
    | nil => exact absurd rfl hys
    | cons y ys' => rw [List.getLastD_cons, List.getLastD_cons]

theorem getLastD_replicate {α : Type} (a : α) :
    ∀ (n : ℕ) (d : α), 0 < n → (List.replicate n a).getLastD d = a := by
  intro n
  induction n with
  | zero => intro d h; omega
  | succ m ih =>
    intro d _
    rw [List.replicate_succ, List.getLastD_cons]
    cases m with
    | zero => rfl
    | succ m' => exact ih a (by omega)

/-- Stripping the PKCS#7 padding added by `Encrypt` recovers the original
message. -/
theorem unpad_padded (msg : List ℕ) :
    unpadStep (msg ++ List.replicate (16 - msg.length % 16)
      (16 - msg.length % 16)) = Except.ok msg := by
  have hpos : 0 < 16 - msg.length % 16 := by omega
  have hrepne : List.replicate (16 - msg.length % 16)
      (16 - msg.length % 16) ≠ ([] : List ℕ) := by
    intro h
    have := congrArg List.length h
    simp at this
    omega
  have hlast : (msg ++ List.replicate (16 - msg.length % 16)
      (16 - msg.length % 16)).getLastD 0 = 16 - msg.length % 16 := by
    rw [getLastD_append_right _ hrepne]
    exact getLastD_replicate _ _ _ hpos
  simp only [unpadStep, hlast, List.length_append, List.length_replicate]
  rw [if_neg (by push_cast; omega)]
  have htn : (((msg.length + (16 - msg.length % 16) : ℕ) : ℤ) -
      ((16 - msg.length % 16 : ℕ) : ℤ)).toNat = msg.length := by omega
  rw [htn]
  rw [List.take_left' rfl]

/-- The `EggToAlpha` entry of the public key `Encrypt` finds for an
attribute (0 when none is found — unused in that case). -/
def pkAlphaVal {p : ℕ} (pks : List (MAABEPubKey p)) (att : String) : ZMod p :=
  match findPK pks att with
  | some pk => (pk.eggToAlpha att).getD 0
  | none => 0

/-- The `GToY` entry of the public key `Encrypt` finds for an attribute. -/
def pkYVal {p : ℕ} (pks : List (MAABEPubKey p)) (att : String) : ZMod p :=
  match findPK pks att with
  | some pk => (pk.gToY att).getD 0
  | none => 0

/-- The `C1` component `Encrypt` stores for an attribute. -/
def c1val {p : ℕ} (a : MAABE p) (pks : List (MAABEPubKey p))
    (lambda r : String → Option ℤ) (att : String) : ZMod p :=
  signedScalarMult a.gt ((lambda att).getD 0) +
    scalarMult (pkAlphaVal pks att) ((r att).getD 0)

/-- The `C2` component `Encrypt` stores for an attribute. -/
def c2val {p : ℕ} (a : MAABE p) (r : String → Option ℤ) (att : String) :
    ZMod p :=
  scalarMult a.g2 ((r att).getD 0)

/-- The `C3` component `Encrypt` stores for an attribute. -/
def c3val {p : ℕ} (a : MAABE p) (pks : List (MAABEPubKey p))
    (omega r : String → Option ℤ) (att : String) : ZMod p :=
  scalarMult (pkYVal pks att) ((r att).getD 0) +
    signedScalarMult a.g2 ((omega att).getD 0)

theorem encLoop_ok {p : ℕ} (a : MAABE p) (pks : List (MAABEPubKey p))
    (lambda omega r : String → Option ℤ) :
    ∀ (ats : List String) (c1 c2 c3 : String → Option (ZMod p)),
      (∀ att ∈ ats, (findPK pks att).isSome) →
      encLoop a pks lambda omega r ats c1 c2 c3 =
        Except.ok
          (fun att => if att ∈ ats then some (c1val a pks lambda r att) else c1 att,
           fun att => if att ∈ ats then some (c2val a r att) else c2 att,
           fun att => if att ∈ ats then some (c3val a pks omega r att) else c3 att) := by
  intro ats
  induction ats with
  | nil =>
    intro c1 c2 c3 _
    simp [encLoop]
  | cons att0 rest ih =>
    intro c1 c2 c3 hcov
    obtain ⟨pk, hpk⟩ := Option.isSome_iff_exists.mp (hcov att0 (by simp))
    simp only [encLoop]
    rw [hpk]
    simp only
    rw [ih _ _ _ (fun att h => hcov att (by simp [h]))]
    simp only [Except.ok.injEq, Prod.mk.injEq]
    refine ⟨?_, ?_, ?_⟩ <;> funext att <;> by_cases h1 : att ∈ rest
    · simp [h1]
    · by_cases h2 : att = att0
      · subst h2
        simp [mapUpd, h1, c1val, pkAlphaVal, hpk]
      · simp [h1, h2, mapUpd]
    · simp [h1]
    · by_cases h2 : att = att0
      · subst h2
        simp [mapUpd, h1, c2val]
      · simp [h1, h2, mapUpd]
    · simp [h1]
    · by_cases h2 : att = att0
      · subst h2
        simp [mapUpd, h1, c3val, pkYVal, hpk]
      · simp [h1, h2, mapUpd]

theorem encLoop_err {p : ℕ} (a : MAABE p) (pks : List (MAABEPubKey p))
    (lambda omega r : String → Option ℤ) :
    ∀ (ats : List String) (c1 c2 c3 : String → Option (ZMod p)),
      (∃ att ∈ ats, findPK pks att = none) →
      encLoop a pks lambda omega r ats c1 c2 c3 =
        Except.error "attribute not found in any pubkey" := by
  intro ats
  induction ats with
  | nil =>
    rintro c1 c2 c3 ⟨att, hmem, _⟩
    simp at hmem
  | cons att0 rest ih =>
    rintro c1 c2 c3 ⟨att, hmem, hnone⟩
    simp only [encLoop]
    cases hfind : findPK pks att0 with
    | none => rfl
    | some pk =>
      simp only
      rcases List.mem_cons.mp hmem with rfl | hmem'
      · rw [hfind] at hnone
        exact absurd hnone (by simp)
      · exact ih _ _ _ ⟨att, hmem', hnone⟩

/-- The intermediate value computed by the `eggLambda` loop of `Decrypt`
for one attribute. -/
def eggVal {p : ℕ} (hash : ZMod p) (ct : MAABECipher p)
    (aToK : String → Option (MAABEKey p)) (att : String) : ZMod p :=
  (ct.c1x att).getD 0 + pairE hash ((ct.c3x att).getD 0) +
    -(pairE ((aToK att).getD { gid := "", attrib := "", key := 0 }).key
      ((ct.c2x att).getD 0))

theorem eggLambdaLoop_ok {p : ℕ} (hash : ZMod p) (ct : MAABECipher p)
    (aToK : String → Option (MAABEKey p)) :
    ∀ (ats : List String) (m : String → Option (ZMod p)),
      (∀ att ∈ ats, ((ct.c1x att).isSome && (ct.c2x att).isSome &&
        (ct.c3x att).isSome) = true) →
      eggLambdaLoop hash ct aToK ats m =
        Except.ok (fun att =>
          if att ∈ ats then some (eggVal hash ct aToK att) else m att) := by
  intro ats
  induction ats with
  | nil =>
    intro m _
    simp [eggLambdaLoop]
  | cons att0 rest ih =>
    intro m hcov
    simp only [eggLambdaLoop]
    rw [if_pos (hcov att0 (by simp))]
    rw [ih _ (fun att h => hcov att (by simp [h]))]
    simp only [Except.ok.injEq]
    funext att
    by_cases h1 : att ∈ rest
    · simp [h1]
    · by_cases h2 : att = att0
      · subst h2
        simp [mapUpd, h1, eggVal]
      · simp [h1, h2, mapUpd]

theorem signed_branch_eq {p : ℕ} (acc el : ZMod p) (c : ℤ) :
    (if 0 < c then acc + scalarMult el c
     else if c < 0 then acc + scalarMult (-el) (-c) else acc) =
      acc + (c : ZMod p) * el := by
  rw [scalarMult, scalarMult]
  split_ifs with h1 h2
  · rfl
  · push_cast
    ring
  · have hc : c = 0 := by omega
    simp [hc]

theorem eggsLoop_ok {p : ℕ} (cx : String → Option ℤ)
    (eggLambda : String → Option (ZMod p)) :
    ∀ (ats : List String) (acc : ZMod p),
      (∀ att ∈ ats, (eggLambda att).isSome) →
      eggsLoop cx eggLambda ats acc =
        Except.ok (acc + (ats.map (fun att =>
          (((cx att).getD 0 : ℤ) : ZMod p) * (eggLambda att).getD 0)).sum) := by
  intro ats
  induction ats with
  | nil =>
    intro acc _
    simp [eggsLoop]
  | cons att0 rest ih =>
    intro acc hcov
    obtain ⟨el, hel⟩ := Option.isSome_iff_exists.mp (hcov att0 (by simp))
    simp only [eggsLoop]
    rw [hel]
    simp only
    rw [ih _ (fun att h => hcov att (by simp [h]))]
    rw [signed_branch_eq]
    simp only [List.map_cons, List.sum_cons, Except.ok.injEq]
    rw [hel]
    simp only [Option.getD_some]
    rw [add_assoc]

theorem keysLoop_ok {p : ℕ} (auth : MAABEAuth p) (hash : ZMod p)
    (gid : String) :
    ∀ ats : List String,
      (∀ att ∈ ats, (auth.sk.alpha att).isSome ∧ (auth.sk.y att).isSome) →
      keysLoop auth hash gid ats =
        Except.ok (ats.map (fun att =>
          { gid := gid, attrib := att,
            key := (auth.sk.alpha att).getD 0 * auth.maabe.g1 +
              (auth.sk.y att).getD 0 * hash })) := by
  intro ats
  induction ats with
  | nil => intro _; simp [keysLoop]
  | cons att0 rest ih =>
    intro hheld
    simp only [keysLoop]
    rw [if_pos (by
      have := hheld att0 (by simp)
      simp [this.1, this.2])]
    rw [ih (fun att h => hheld att (by simp [h]))]
    simp

theorem keysLoop_err {p : ℕ} (auth : MAABEAuth p) (hash : ZMod p)
    (gid : String) :
    ∀ ats : List String,
      (∃ att ∈ ats, ¬((auth.sk.alpha att).isSome ∧ (auth.sk.y att).isSome)) →
      keysLoop auth hash gid ats =
        Except.error "attribute not found in secret key" := by
  intro ats
  induction ats with
  | nil => rintro ⟨att, hmem, _⟩; simp at hmem
  | cons att0 rest ih =>
    rintro ⟨att, hmem, hmiss⟩
    simp only [keysLoop]
    by_cases h0 : ((auth.sk.alpha att0).isSome && (auth.sk.y att0).isSome) = true
    · rw [if_pos h0]
      rcases List.mem_cons.mp hmem with rfl | hmem'
      · exact absurd (by simpa using h0) hmiss
      · rw [ih ⟨att, hmem', hmiss⟩]
    · rw [if_neg h0]

/-! ## Claim C3 -/

/-- C3 counterexample: The claim states the unpadding step rejects
whenever the last byte of the decrypted data exceeds the AES block size
(16).  The source only checks the pad length against the data length: on
a 32-byte block whose last byte is 17 it happily strips 17 bytes and
succeeds instead of rejecting. -/
theorem C3_unpad_counterexample :
    (List.replicate 31 (0 : ℕ) ++ [17]).getLastD 0 = 17 ∧
    unpadStep (List.replicate 31 (0 : ℕ) ++ [17]) =
      Except.ok (List.replicate 15 (0 : ℕ)) := by
  constructor
  · rfl
  · rfl

/-- C3 amended: The unpadding step at the end of `Decrypt` rejects
exactly when the last byte of the decrypted data exceeds the data's
length (the block-size bound of the claim is not checked); otherwise that
many bytes are stripped from the end. -/
theorem C3_unpad_amended (msgPad : List ℕ) (h : msgPad ≠ []) :
    (msgPad.getLastD 0 ≤ msgPad.length →
      unpadStep msgPad =
        Except.ok (msgPad.take (msgPad.length - msgPad.getLastD 0))) ∧
    (msgPad.length < msgPad.getLastD 0 →
      unpadStep msgPad = Except.error "failed to decrypt") := by
  constructor
  · intro hle
    simp only [unpadStep]
    rw [if_neg (by omega)]
    have htn : ((msgPad.length : ℤ) - ((msgPad.getLastD 0 : ℕ) : ℤ)).toNat =
        msgPad.length - msgPad.getLastD 0 := by omega
    rw [htn]
  · intro hlt
    simp only [unpadStep]
    rw [if_pos (by omega)]

/-- Witness for the amended C3 at the concrete input `[2, 2]`. -/
theorem C3_unpad_amended_witness : unpadStep [2, 2] = Except.ok ([] : List ℕ) := by
  have h := (C3_unpad_amended [2, 2] (by decide)).1 (by decide)
  simpa using h

/-! ## Claim C10 -/

/-- C10: `Decrypt` returns an error for an empty key list and for key
lists carrying two different GIDs; the error is produced before any
pairing or symmetric decryption, which the statement captures by holding
for every ciphertext, group hash, solver and AES-CBC decryptor. -/
theorem C10_decrypt_gid_checks {p : ℕ} (a : MAABE p)
    (hashG1 : String → ZMod p)
    (solver : List (List ℤ) → List ℤ → ℕ → Option (List ℤ))
    (shaFn : ZMod p → List ℕ) (decCBC : List ℕ → List ℕ → List ℕ → List ℕ)
    (ct : MAABECipher p) :
    (maDecrypt a hashG1 solver shaFn decCBC ct [] =
      Except.error "empty set of attribute keys") ∧
    (∀ (k0 : MAABEKey p) (ks' : List (MAABEKey p)),
      (∃ k ∈ k0 :: ks', k.gid ≠ k0.gid) →
      maDecrypt a hashG1 solver shaFn decCBC ct (k0 :: ks') =
        Except.error "not all GIDs are the same") := by
  constructor
  · rfl
  · rintro k0 ks' ⟨k, hk, hne⟩
    simp only [maDecrypt]
    rw [if_pos]
    rw [List.any_eq_true]
    exact ⟨k, hk, by simpa using hne⟩

/-- Witness for C10 on a concrete ciphertext, the empty key list and a
two-GID key list. -/
theorem C10_decrypt_gid_checks_witness :
    (maDecrypt (newMAABE 5) (fun _ => 1) (fun _ _ _ => none) (fun _ => [])
      (fun _ _ d => d)
      { c0 := 0, c1x := fun _ => none, c2x := fun _ => none,
        c3x := fun _ => none, msp := { mat := [], rowToAttrib := [] },
        symEnc := [], iv := [] } [] =
      Except.error "empty set of attribute keys") ∧
    (maDecrypt (newMAABE 5) (fun _ => 1) (fun _ _ _ => none) (fun _ => [])
      (fun _ _ d => d)
      { c0 := 0, c1x := fun _ => none, c2x := fun _ => none,
        c3x := fun _ => none, msp := { mat := [], rowToAttrib := [] },
        symEnc := [], iv := [] }
      [{ gid := "u", attrib := "a", key := 0 },
       { gid := "v", attrib := "b", key := 0 }] =
      Except.error "not all GIDs are the same") := by
  constructor
  · exact (C10_decrypt_gid_checks (newMAABE 5) (fun _ => 1) (fun _ _ _ => none)
      (fun _ => []) (fun _ _ d => d) _).1
  · exact (C10_decrypt_gid_checks (newMAABE 5) (fun _ => 1) (fun _ _ _ => none)
      (fun _ => []) (fun _ _ d => d) _).2
      { gid := "u", attrib := "a", key := 0 }
      [{ gid := "v", attrib := "b", key := 0 }]
      ⟨{ gid := "v", attrib := "b", key := 0 }, by simp, by decide⟩

/-! ## Claim C8 -/

/-- C8: For a non-empty `gid` and non-empty attribute list,
`GenerateAttribKeys` returns one key per requested attribute, in order,
with `Gid = gid`, `Attrib = a` and `Key = g1^{α_a} · H(gid)^{y_a}`,
provided the authority holds every requested attribute; if some requested
attribute is not held it returns an error. -/
theorem C8_generate_attrib_keys {p : ℕ} (auth : MAABEAuth p)
    (hashG1 : String → ZMod p) (gid : String) (attribs : List String)
    (hgid : gid.length ≠ 0) (hats : attribs ≠ []) :
    ((∀ att ∈ attribs, (auth.sk.alpha att).isSome ∧ (auth.sk.y att).isSome) →
      generateAttribKeys auth hashG1 gid attribs =
        Except.ok (attribs.map (fun att =>
          { gid := gid, attrib := att,
            key := (auth.sk.alpha att).getD 0 * auth.maabe.g1 +
              (auth.sk.y att).getD 0 * hashG1 gid }))) ∧
    ((∃ att ∈ attribs, ¬((auth.sk.alpha att).isSome ∧ (auth.sk.y att).isSome)) →
      generateAttribKeys auth hashG1 gid attribs =
        Except.error "attribute not found in secret key") := by
  constructor
  · intro hheld
    rw [generateAttribKeys, if_neg hgid,
      if_neg (by simpa [List.length_eq_zero] using hats)]
    exact keysLoop_ok auth (hashG1 gid) gid attribs hheld
  · intro hmiss
    rw [generateAttribKeys, if_neg hgid,
      if_neg (by simpa [List.length_eq_zero] using hats)]
    exact keysLoop_err auth (hashG1 gid) gid attribs hmiss

/-- Witness for C8: one authority holding attribute `"a"` with
`α = 2`, `y = 3` over `p = 5`, hash point `1`: the key exponent is
`2·1 + 3·1 = 0` in `ZMod 5`. -/
theorem C8_generate_attrib_keys_witness :
    generateAttribKeys
      { id := "A", maabe := newMAABE 5,
        pk := { attribs := ["a"], eggToAlpha := fun _ => none,
                gToY := fun _ => none },
        sk := { attribs := ["a"],
                alpha := fun att => if att = "a" then some 2 else none,
                y := fun att => if att = "a" then some 3 else none } }
      (fun _ => (1 : ZMod 5)) "u" ["a"] =
      Except.ok [{ gid := "u", attrib := "a", key := 0 }] := by
  have h := (C8_generate_attrib_keys
    { id := "A", maabe := newMAABE 5,
      pk := { attribs := ["a"], eggToAlpha := fun _ => none,
              gToY := fun _ => none },
      sk := { attribs := ["a"],
              alpha := fun att => if att = "a" then some 2 else none,
              y := fun att => if att = "a" then some 3 else none } }
    (fun _ => (1 : ZMod 5)) "u" ["a"] (by decide) (by decide)).1
    (by intro att hmem; simp at hmem; subst hmem; constructor <;> simp)
  exact h.trans (congrArg Except.ok (by decide))

/-! ## Claim C7 -/

/-- C7: `Encrypt` returns an error whenever the message is empty,
whenever two MSP rows map to the same attribute, or whenever some
attribute of `rowToAttrib` appears in none of the supplied public keys;
and for a non-empty message, injective `rowToAttrib` and covering public
keys (on a well-formed MSP, with the injected randomness of the right
dimensions) it succeeds. -/
theorem C7_encrypt_checks {p : ℕ} (a : MAABE p) (shaFn : ZMod p → List ℕ)
    (encCBC : List ℕ → List ℕ → List ℕ → List ℕ) (symKey : ZMod p)
    (iv : List ℕ) (v w rI : List ℤ) (msg : List ℕ) (msp : MSP)
    (pks : List (MAABEPubKey p)) :
    (msg = [] →
      ∃ e, maEncrypt a shaFn encCBC symKey iv v w rI msg msp pks =
        Except.error e) ∧
    (¬ msp.rowToAttrib.Nodup →
      ∃ e, maEncrypt a shaFn encCBC symKey iv v w rI msg msp pks =
        Except.error e) ∧
    ((∃ att ∈ msp.rowToAttrib, findPK pks att = none) →
      ∃ e, maEncrypt a shaFn encCBC symKey iv v w rI msg msp pks =
        Except.error e) ∧
    (msg ≠ [] → msp.rowToAttrib.Nodup →
      (∀ att ∈ msp.rowToAttrib, (findPK pks att).isSome) →
      msp.mat ≠ [] → (msp.mat.headD []).length ≠ 0 →
      (∀ row ∈ msp.mat, row.length = (msp.mat.headD []).length) →
      v.length = (msp.mat.headD []).length →
      w.length = (msp.mat.headD []).length →
      ∃ ct, maEncrypt a shaFn encCBC symKey iv v w rI msg msp pks =
        Except.ok ct) := by
  refine ⟨?_, ?_, ?_, ?_⟩
  · intro hmsg
    subst hmsg
    rw [maEncrypt]
    by_cases h1 : msp.mat.length = 0 ∨ (msp.mat.headD []).length = 0
    · rw [if_pos h1]
      exact ⟨_, rfl⟩
    · rw [if_neg h1]
      by_cases h2 : ¬ noRepeats msp.rowToAttrib
      · rw [if_pos h2]
        exact ⟨_, rfl⟩
      · rw [if_neg h2, if_pos (by simp)]
        exact ⟨_, rfl⟩
  · intro hnd
    rw [maEncrypt]
    by_cases h1 : msp.mat.length = 0 ∨ (msp.mat.headD []).length = 0
    · rw [if_pos h1]
      exact ⟨_, rfl⟩
    · rw [if_neg h1, if_pos (by
        rw [noRepeats_iff]
        exact hnd)]
      exact ⟨_, rfl⟩
  · intro hunc
    rw [maEncrypt]
    by_cases h1 : msp.mat.length = 0 ∨ (msp.mat.headD []).length = 0
    · rw [if_pos h1]
      exact ⟨_, rfl⟩
    · rw [if_neg h1]
      by_cases h2 : ¬ noRepeats msp.rowToAttrib
      · rw [if_pos h2]
        exact ⟨_, rfl⟩
      · rw [if_neg h2]
        by_cases h3 : msg.length = 0
        · rw [if_pos h3]
          exact ⟨_, rfl⟩
        · rw [if_neg h3]
          cases hmv : matVecMul msp.mat v with
          | none =>
            simp only [hmv]
            exact ⟨_, rfl⟩
          | some lambdaI =>
            simp only [hmv]
            by_cases hl : lambdaI.length ≠ msp.mat.length
            · rw [if_pos hl]
              exact ⟨_, rfl⟩
            · rw [if_neg hl]
              cases hmw : matVecMul msp.mat (w.set 0 0) with
              | none =>
                simp only [hmw]
                exact ⟨_, rfl⟩
              | some omegaI =>
                simp only [hmw]
                by_cases hl2 : omegaI.length ≠ msp.mat.length
                · rw [if_pos hl2]
                  exact ⟨_, rfl⟩
                · rw [if_neg hl2]
                  rw [encLoop_err a pks _ _ _ msp.rowToAttrib _ _ _ hunc]
                  exact ⟨_, rfl⟩
  · intro hmsg hnd hcov hm0 hc0 hrect hv hw
    rw [maEncrypt]
    rw [if_neg (by
      push_neg
      constructor
      · simpa [List.length_eq_zero] using hm0
      · exact hc0)]
    rw [if_neg (by
      rw [not_not, noRepeats_iff]
      exact hnd)]
    rw [if_neg (by simpa [List.length_eq_zero] using hmsg)]
    have hmv : matVecMul msp.mat v =
        some (msp.mat.map (fun row => dotZ row v)) := by
      rw [matVecMul, if_pos]
      simp only [List.all_eq_true, decide_eq_true_eq]
      intro row hr
      rw [hrect row hr, hv]
    have hmw : matVecMul msp.mat (w.set 0 0) =
        some (msp.mat.map (fun row => dotZ row (w.set 0 0))) := by
      rw [matVecMul, if_pos]
      simp only [List.all_eq_true, decide_eq_true_eq]
      intro row hr
      rw [hrect row hr, List.length_set, hw]
    simp only [hmv, hmw]
    rw [if_neg (by simp), if_neg (by simp)]
    rw [encLoop_ok a pks _ _ _ msp.rowToAttrib _ _ _ hcov]
    exact ⟨_, rfl⟩

/-- Witness for C7 (the success direction, which carries the
hypotheses): a one-row MSP over one attribute with a covering public
key. -/
theorem C7_encrypt_checks_witness :
    ∃ ct, maEncrypt (newMAABE 5) (fun _ => []) (fun _ _ d => d) 4 [] [3] [4]
      [2] [7, 7] { mat := [[1]], rowToAttrib := ["a"] }
      [{ attribs := ["a"],
         eggToAlpha := fun att => if att = "a" then some 2 else none,
         gToY := fun att => if att = "a" then some 3 else none }] =
      Except.ok ct := by
  refine (C7_encrypt_checks (newMAABE 5) (fun _ => []) (fun _ _ d => d) 4 []
    [3] [4] [2] [7, 7] { mat := [[1]], rowToAttrib := ["a"] }
    [{ attribs := ["a"],
       eggToAlpha := fun att => if att = "a" then some 2 else none,
       gToY := fun att => if att = "a" then some 3 else none }]).2.2.2
    (by decide) (by decide) ?_ (by decide) (by decide) (by decide) (by decide)
    (by decide)
  intro att hmem
  simp at hmem
  subst hmem
  rw [findPK]
  simp

end GoFE


namespace GoFE

theorem mem_zip_map_swap {α β γ : Type} (f : α → γ) :
    ∀ (l1 : List α) (l2 : List β) (a : α) (b : β),
      (a, b) ∈ l1.zip l2 → (b, f a) ∈ l2.zip (l1.map f) := by
  intro l1
  induction l1 with
  | nil => intro l2 a b h; simp at h
  | cons x xs ih =>
    intro l2 a b h
    cases l2 with
    | nil => simp at h
    | cons y ys =>
      simp only [List.map_cons, List.zip_cons_cons, List.mem_cons] at h ⊢
      rcases h with h | h
      · rw [Prod.mk.injEq] at h
        obtain ⟨rfl, rfl⟩ := h
        exact Or.inl rfl
      · right
        exact ih ys a b h

theorem set_zero_getD_zero (w : List ℤ) : (w.set 0 0).getD 0 0 = 0 := by
  cases w <;> rfl

theorem col_sum_eval {p : ℕ} (good : List (List ℤ × String)) (c u : List ℤ)
    (d : ℕ) (hd : d ≠ 0)
    (hrows : ∀ k, k < good.length → ((good.map Prod.fst).getD k []).length = d)
    (hu : u.length = d)
    (hsol : ∀ j < d, ((∑ k in Finset.range good.length,
        c.getD k 0 * ((good.map Prod.fst).getD k []).getD j 0 : ℤ) : ZMod p) =
        if j = 0 then 1 else 0) :
    (∑ k in Finset.range good.length,
        ((c.getD k 0 : ℤ) : ZMod p) *
          ((dotZ ((good.map Prod.fst).getD k []) u : ℤ) : ZMod p)) =
      ((u.getD 0 0 : ℤ) : ZMod p) := by
  have h1 : (∑ k in Finset.range good.length,
      ((c.getD k 0 : ℤ) : ZMod p) *
        ((dotZ ((good.map Prod.fst).getD k []) u : ℤ) : ZMod p)) =
      ((∑ k in Finset.range good.length,
        c.getD k 0 * dotZ ((good.map Prod.fst).getD k []) u : ℤ) : ZMod p) := by
    push_cast
    rfl
  rw [h1, sum_mul_dot_exchange good.length d _ _ u hrows hu]
  rw [Int.cast_sum]
  have h2 : ∀ j ∈ Finset.range d,
      (((∑ k in Finset.range good.length,
          c.getD k 0 * ((good.map Prod.fst).getD k []).getD j 0) * u.getD j 0 : ℤ) :
        ZMod p) =
      (if j = 0 then 1 else 0) * ((u.getD j 0 : ℤ) : ZMod p) := by
    intro j hj
    rw [Int.cast_mul, hsol j (Finset.mem_range.mp hj)]
  rw [Finset.sum_congr rfl h2]
  rw [Finset.sum_eq_single_of_mem 0 (Finset.mem_range.mpr (Nat.pos_of_ne_zero hd))]
  · simp
  · intro b _ hb
    simp [hb]

theorem good_sum_eval {p : ℕ} (G : String → ZMod p)
    (good : List (List ℤ × String)) (c v w' : List ℤ) (hashv : ZMod p)
    (d : ℕ) (hd : d ≠ 0)
    (hrows : ∀ k, k < good.length → ((good.map Prod.fst).getD k []).length = d)
    (hv : v.length = d) (hw' : w'.length = d)
    (hw0 : w'.getD 0 0 = 0)
    (hG : ∀ k, k < good.length →
      G ((good.map Prod.snd).getD k "") =
        ((c.getD k 0 : ℤ) : ZMod p) *
          (((dotZ ((good.map Prod.fst).getD k []) v : ℤ) : ZMod p) +
            hashv * ((dotZ ((good.map Prod.fst).getD k []) w' : ℤ) : ZMod p)))
    (hsol : ∀ j < d, ((∑ k in Finset.range good.length,
        c.getD k 0 * ((good.map Prod.fst).getD k []).getD j 0 : ℤ) : ZMod p) =
        if j = 0 then 1 else 0) :
    ((good.map Prod.snd).map G).sum = ((v.getD 0 0 : ℤ) : ZMod p) := by
  rw [list_map_sum_eq_range "" G (good.map Prod.snd)]
  simp only [List.length_map]
  rw [Finset.sum_congr rfl (fun k hk => hG k (Finset.mem_range.mp hk))]
  simp only [mul_add]
  rw [Finset.sum_add_distrib]
  have hB : (∑ k in Finset.range good.length,
      ((c.getD k 0 : ℤ) : ZMod p) *
        (hashv * ((dotZ ((good.map Prod.fst).getD k []) w' : ℤ) : ZMod p))) = 0 := by
    have hswap : ∀ k ∈ Finset.range good.length,
        ((c.getD k 0 : ℤ) : ZMod p) *
          (hashv * ((dotZ ((good.map Prod.fst).getD k []) w' : ℤ) : ZMod p)) =
        hashv * (((c.getD k 0 : ℤ) : ZMod p) *
          ((dotZ ((good.map Prod.fst).getD k []) w' : ℤ) : ZMod p)) := by
      intro k _
      ring
    rw [Finset.sum_congr rfl hswap, ← Finset.mul_sum]
    rw [col_sum_eval good c w' d hd hrows hw' hsol]
    rw [hw0]
    simp
  rw [col_sum_eval good c v d hd hrows hv hsol, hB, add_zero]

end GoFE

namespace GoFE

set_option maxHeartbeats 1000000

/-- C2: MA-ABE round trip.  For every non-empty message, MSP with
injective `rowToAttrib`, public keys covering the policy, and attribute
keys for exactly the attributes of a satisfying row set `S` (the rows with
keys), issued under a single `gid` by the authorities holding them (each
key is `g1^α·H(gid)^y` for the entries of the public key `Encrypt` finds),
`Decrypt` applied to `Encrypt` of the message returns the message exactly.
The spec-modelled Gaussian-elimination solver is a parameter constrained
by its contract at this call (`hsolve`, `hclen`, `hsol`: it returns
reconstruction coefficients `c` with `M_Sᵀ·c ≡ (1,0,…,0) mod p`, which
exist precisely because the rows of `S` span `(1,0,…,0)`); AES-CBC and
SHA-256 are abstract external primitives (`hcbc` states CBC inversion). -/
theorem C2_maabe_roundtrip {p : ℕ}
    (hashG1 : String → ZMod p)
    (solver : List (List ℤ) → List ℤ → ℕ → Option (List ℤ))
    (shaFn : ZMod p → List ℕ)
    (encCBC decCBC : List ℕ → List ℕ → List ℕ → List ℕ)
    (symKey : ZMod p) (iv : List ℕ) (v w rI : List ℤ)
    (msg : List ℕ) (msp : MSP) (pks : List (MAABEPubKey p))
    (gid : String) (ks : List (MAABEKey p)) (c : List ℤ)
    (hcbc : ∀ key ivv data, decCBC key ivv (encCBC key ivv data) = data)
    (hmat0 : msp.mat ≠ [])
    (hcols : (msp.mat.headD []).length ≠ 0)
    (hrect : ∀ row ∈ msp.mat, row.length = (msp.mat.headD []).length)
    (hlen : msp.rowToAttrib.length = msp.mat.length)
    (hnd : msp.rowToAttrib.Nodup)
    (hv : v.length = (msp.mat.headD []).length)
    (hw : w.length = (msp.mat.headD []).length)
    (hmsg : msg ≠ [])
    (hcov : ∀ att ∈ msp.rowToAttrib, (findPK pks att).isSome)
    (hks0 : ks ≠ [])
    (hgid : ∀ k ∈ ks, k.gid = gid)
    (hkey : ∀ k ∈ ks, ∃ pk αv yv,
      findPK pks k.attrib = some pk ∧
      pk.eggToAlpha k.attrib = some αv ∧ pk.gToY k.attrib = some yv ∧
      k.key = αv + hashG1 gid * yv)
    (hgood : goodPairs msp ks ≠ [])
    (hsolve : solver (transposeZ ((goodPairs msp ks).map Prod.fst))
        ((List.replicate (msp.mat.headD []).length (0 : ℤ)).set 0 1) p = some c)
    (hclen : c.length = (goodPairs msp ks).length)
    (hsol : ∀ j < (msp.mat.headD []).length,
      ((∑ k in Finset.range (goodPairs msp ks).length,
          c.getD k 0 * (((goodPairs msp ks).map Prod.fst).getD k []).getD j 0 : ℤ) :
        ZMod p) = if j = 0 then 1 else 0) :
    Except.bind (maEncrypt (newMAABE p) shaFn encCBC symKey iv v w rI msg msp pks)
      (fun ct => maDecrypt (newMAABE p) hashG1 solver shaFn decCBC ct ks) =
      Except.ok msg := by
  have hmv : matVecMul msp.mat v = some (msp.mat.map (fun row => dotZ row v)) := by
    rw [matVecMul, if_pos]
    simp only [List.all_eq_true, decide_eq_true_eq]
    intro row hr
    rw [hrect row hr, hv]
  have hmw : matVecMul msp.mat (w.set 0 0) =
      some (msp.mat.map (fun row => dotZ row (w.set 0 0))) := by
    rw [matVecMul, if_pos]
    simp only [List.all_eq_true, decide_eq_true_eq]
    intro row hr
    rw [hrect row hr, List.length_set, hw]
  have henc : maEncrypt (newMAABE p) shaFn encCBC symKey iv v w rI msg msp pks =
      Except.ok
        { c0 := symKey + scalarMult (newMAABE p).gt (v.getD 0 0)
          c1x := fun att => if att ∈ msp.rowToAttrib then
              some (c1val (newMAABE p) pks
                (buildMap msp.rowToAttrib (msp.mat.map (fun row => dotZ row v)))
                (buildMap msp.rowToAttrib rI) att) else none
          c2x := fun att => if att ∈ msp.rowToAttrib then
              some (c2val (newMAABE p) (buildMap msp.rowToAttrib rI) att) else none
          c3x := fun att => if att ∈ msp.rowToAttrib then
              some (c3val (newMAABE p) pks
                (buildMap msp.rowToAttrib
                  (msp.mat.map (fun row => dotZ row (w.set 0 0))))
                (buildMap msp.rowToAttrib rI) att) else none
          msp := msp
          symEnc := encCBC (shaFn symKey) iv
            (msg ++ List.replicate (16 - msg.length % 16) (16 - msg.length % 16))
          iv := iv } := by
    rw [maEncrypt]
    rw [if_neg (by
      push_neg
      exact ⟨by simpa [List.length_eq_zero] using hmat0, hcols⟩)]
    rw [if_neg (by
      rw [not_not, noRepeats_iff]
      exact hnd)]
    rw [if_neg (by simpa [List.length_eq_zero] using hmsg)]
    simp only [hmv, hmw]
    rw [if_neg (by simp), if_neg (by simp)]
    rw [encLoop_ok (newMAABE p) pks _ _ _ msp.rowToAttrib _ _ _ hcov]
  rw [henc]
  simp only [Except.bind]
  obtain ⟨k0, ks', hks⟩ := List.exists_cons_of_ne_nil hks0
  subst hks
  have hg0 : k0.gid = gid := hgid k0 (by simp)
  simp only [maDecrypt]
  rw [if_neg (by
    simp only [List.any_eq_true, not_exists]
    intro k
    simp only [not_and]
    intro hk hb
    rw [bne_iff_ne] at hb
    exact hb (by rw [hgid k hk, hg0]))]
  rw [hg0]
  -- facts about the good rows/attributes
  have hzipmem : ∀ pr ∈ goodPairs msp (k0 :: ks'),
      pr ∈ msp.mat.zip msp.rowToAttrib :=
    fun pr hpr => (List.mem_filter.mp hpr).1
  have hattmem : ∀ att ∈ (goodPairs msp (k0 :: ks')).map Prod.snd,
      att ∈ msp.rowToAttrib := by
    intro att h
    obtain ⟨pr, hpr, hsnd⟩ := List.mem_map.mp h
    obtain ⟨r0, a0⟩ := pr
    exact hsnd ▸ (List.of_mem_zip (hzipmem (r0, a0) hpr)).2
  have hrowmem : ∀ row ∈ (goodPairs msp (k0 :: ks')).map Prod.fst,
      row ∈ msp.mat := by
    intro row h
    obtain ⟨pr, hpr, hfst⟩ := List.mem_map.mp h
    obtain ⟨r0, a0⟩ := pr
    exact hfst ▸ (List.of_mem_zip (hzipmem (r0, a0) hpr)).1
  have hgrne : (goodPairs msp (k0 :: ks')).map Prod.fst ≠ [] :=
    fun h => hgood (List.map_eq_nil.mp h)
  have hhead : (((goodPairs msp (k0 :: ks')).map Prod.fst).headD []).length =
      (msp.mat.headD []).length := by
    cases hG : (goodPairs msp (k0 :: ks')).map Prod.fst with
    | nil => exact absurd hG hgrne
    | cons r rs =>
      simp only [List.headD_cons]
      exact hrect r (hrowmem r (by rw [hG]; exact List.mem_cons_self r rs))
  have hisrect : isRect ((goodPairs msp (k0 :: ks')).map Prod.fst) = true := by
    simp only [isRect, List.all_eq_true, decide_eq_true_eq]
    intro row hr
    rw [hrect row (hrowmem row hr), hhead]
  have hgand : ((goodPairs msp (k0 :: ks')).map Prod.snd).Nodup := by
    have hsub : List.Sublist ((goodPairs msp (k0 :: ks')).map Prod.snd)
        ((msp.mat.zip msp.rowToAttrib).map Prod.snd) :=
      List.Sublist.map Prod.snd (List.filter_sublist _)
    have hz : (msp.mat.zip msp.rowToAttrib).map Prod.snd = msp.rowToAttrib :=
      List.map_snd_zip _ _ (by omega)
    exact List.Nodup.sublist (hz ▸ hsub) hnd
  have hrowlens : ∀ k, k < (goodPairs msp (k0 :: ks')).length →
      (((goodPairs msp (k0 :: ks')).map Prod.fst).getD k []).length =
        (msp.mat.headD []).length := by
    intro k hk
    have hk' : k < ((goodPairs msp (k0 :: ks')).map Prod.fst).length := by
      simpa using hk
    rw [List.getD_eq_getElem _ _ hk']
    exact hrect _ (hrowmem _ (List.getElem_mem hk'))
  -- the abstract-ciphertext decryption argument
  have main : ∀ ct : MAABECipher p,
      ct.c0 = symKey + scalarMult (newMAABE p).gt (v.getD 0 0) →
      ct.c1x = (fun att => if att ∈ msp.rowToAttrib then
          some (c1val (newMAABE p) pks
            (buildMap msp.rowToAttrib (msp.mat.map (fun row => dotZ row v)))
            (buildMap msp.rowToAttrib rI) att) else none) →
      ct.c2x = (fun att => if att ∈ msp.rowToAttrib then
          some (c2val (newMAABE p) (buildMap msp.rowToAttrib rI) att) else none) →
      ct.c3x = (fun att => if att ∈ msp.rowToAttrib then
          some (c3val (newMAABE p) pks
            (buildMap msp.rowToAttrib
              (msp.mat.map (fun row => dotZ row (w.set 0 0))))
            (buildMap msp.rowToAttrib rI) att) else none) →
      ct.msp = msp →
      ct.symEnc = encCBC (shaFn symKey) iv
        (msg ++ List.replicate (16 - msg.length % 16) (16 - msg.length % 16)) →
      ct.iv = iv →
      (if ¬isRect (List.map Prod.fst (goodPairs ct.msp (k0 :: ks'))) = true then
        Except.error "malformed input"
      else
        match
          solver (transposeZ (List.map Prod.fst (goodPairs ct.msp (k0 :: ks'))))
            ((List.replicate ((List.map Prod.fst (goodPairs ct.msp (k0 :: ks'))).headD []).length 0).set 0 1) p with
        | none => Except.error "no solution"
        | some c =>
          match
            eggLambdaLoop (hashG1 gid) ct (keyFor (k0 :: ks'))
              (List.map Prod.snd (goodPairs ct.msp (k0 :: ks'))) (fun _ => none) with
          | Except.error e => Except.error e
          | Except.ok eggLambda =>
            match
              eggsLoop (buildMap (List.map Prod.snd (goodPairs ct.msp (k0 :: ks'))) c) eggLambda
                (List.map Prod.snd (goodPairs ct.msp (k0 :: ks'))) 0 with
            | Except.error e => Except.error e
            | Except.ok eggs =>
              unpadStep (decCBC (shaFn (ct.c0 + -eggs)) ct.iv ct.symEnc)) =
        Except.ok msg := by
    intro ct hc0 hc1 hc2 hc3 hmspe hsymE hivE
    rw [hmspe]
    rw [if_neg (not_not_intro hisrect)]
    rw [hhead]
    simp only [hsolve]
    have hLam := eggLambdaLoop_ok (hashG1 gid) ct (keyFor (k0 :: ks'))
      ((goodPairs msp (k0 :: ks')).map Prod.snd) (fun _ => none)
      (by
        intro att h
        have hA := hattmem att h
        simp [hc1, hc2, hc3, hA])
    simp only [hLam]
    have hEggs := eggsLoop_ok
      (buildMap ((goodPairs msp (k0 :: ks')).map Prod.snd) c)
      (fun att => if att ∈ (goodPairs msp (k0 :: ks')).map Prod.snd then
        some (eggVal (hashG1 gid) ct (keyFor (k0 :: ks')) att) else none)
      ((goodPairs msp (k0 :: ks')).map Prod.snd) 0
      (by intro att h; simp [h])
    simp only [hEggs]
    have heval : ∀ pr ∈ goodPairs msp (k0 :: ks'),
        eggVal (hashG1 gid) ct (keyFor (k0 :: ks')) pr.2 =
          ((dotZ pr.1 v : ℤ) : ZMod p) +
            hashG1 gid * ((dotZ pr.1 (w.set 0 0) : ℤ) : ZMod p) := by
      rintro ⟨row, att⟩ hpr
      show eggVal (hashG1 gid) ct (keyFor (k0 :: ks')) att =
        ((dotZ row v : ℤ) : ZMod p) +
          hashG1 gid * ((dotZ row (w.set 0 0) : ℤ) : ZMod p)
      have hzip : (row, att) ∈ msp.mat.zip msp.rowToAttrib := hzipmem _ hpr
      have hattm : att ∈ msp.rowToAttrib := (List.of_mem_zip hzip).2
      have hkf : (keyFor (k0 :: ks') att).isSome := by
        have h2 := (List.mem_filter.mp hpr).2
        simpa using h2
      obtain ⟨katt, hkatt⟩ := Option.isSome_iff_exists.mp hkf
      obtain ⟨hkmem, hkattr⟩ := keyFor_some _ att katt hkatt
      obtain ⟨pk, av, yv, hfind, ha, hy, hkeyv⟩ := hkey katt hkmem
      rw [hkattr] at hfind ha hy
      have hlam : buildMap msp.rowToAttrib
          (msp.mat.map (fun r => dotZ r v)) att = some (dotZ row v) := by
        have hm := mem_zip_map_swap (fun r => dotZ r v) msp.mat
          msp.rowToAttrib row att hzip
        have hb := buildMap_zip_mem msp.rowToAttrib
          (msp.mat.map (fun r => dotZ r v)) hnd (by simp [hlen])
          (att, dotZ row v) hm
        simpa using hb
      have homg : buildMap msp.rowToAttrib
          (msp.mat.map (fun r => dotZ r (w.set 0 0))) att =
            some (dotZ row (w.set 0 0)) := by
        have hm := mem_zip_map_swap (fun r => dotZ r (w.set 0 0)) msp.mat
          msp.rowToAttrib row att hzip
        have hb := buildMap_zip_mem msp.rowToAttrib
          (msp.mat.map (fun r => dotZ r (w.set 0 0))) hnd (by simp [hlen])
          (att, dotZ row (w.set 0 0)) hm
        simpa using hb
      rw [eggVal, hc1, hc2, hc3]
      simp only [if_pos hattm]
      rw [hkatt]
      simp only [Option.getD_some]
      simp only [c1val, c2val, c3val, pkAlphaVal, pkYVal, hfind]
      rw [hlam, homg, hkeyv, ha, hy]
      simp only [Option.getD_some]
      rw [signedScalarMult_eq, signedScalarMult_eq]
      simp only [scalarMult, newMAABE, pairE]
      ring
    have hGm : ∀ k, k < (goodPairs msp (k0 :: ks')).length →
        (fun att =>
          (((buildMap (List.map Prod.snd (goodPairs msp (k0 :: ks'))) c att).getD 0 : ℤ) : ZMod p) *
            (if att ∈ List.map Prod.snd (goodPairs msp (k0 :: ks')) then
              some (eggVal (hashG1 gid) ct (keyFor (k0 :: ks')) att)
            else none).getD 0)
          ((List.map Prod.snd (goodPairs msp (k0 :: ks'))).getD k "") =
        ((c.getD k 0 : ℤ) : ZMod p) *
          (((dotZ ((List.map Prod.fst (goodPairs msp (k0 :: ks'))).getD k []) v : ℤ) : ZMod p) +
            hashG1 gid *
              ((dotZ ((List.map Prod.fst (goodPairs msp (k0 :: ks'))).getD k [])
                (w.set 0 0) : ℤ) : ZMod p)) := by
      intro k hk
      have hk2 : k < (List.map Prod.snd (goodPairs msp (k0 :: ks'))).length := by
        simpa using hk
      have hk3 : k < (List.map Prod.fst (goodPairs msp (k0 :: ks'))).length := by
        simpa using hk
      simp only []
      have hprsnd : (List.map Prod.snd (goodPairs msp (k0 :: ks'))).getD k "" =
          ((goodPairs msp (k0 :: ks')).getD k ([], "")).2 := by
        rw [List.getD_eq_getElem _ _ hk2, List.getD_eq_getElem _ _ hk]
        simp
      have hprfst : (List.map Prod.fst (goodPairs msp (k0 :: ks'))).getD k [] =
          ((goodPairs msp (k0 :: ks')).getD k ([], "")).1 := by
        rw [List.getD_eq_getElem _ _ hk3, List.getD_eq_getElem _ _ hk]
        simp
      have hmemk : (List.map Prod.snd (goodPairs msp (k0 :: ks'))).getD k "" ∈
          List.map Prod.snd (goodPairs msp (k0 :: ks')) := by
        rw [List.getD_eq_getElem _ _ hk2]
        exact List.getElem_mem _
      have hprm : (goodPairs msp (k0 :: ks')).getD k ([], "") ∈
          goodPairs msp (k0 :: ks') := by
        rw [List.getD_eq_getElem _ _ hk]
        exact List.getElem_mem _
      rw [buildMap_getD_pos (List.map Prod.snd (goodPairs msp (k0 :: ks'))) c
        k "" 0 hgand (by simp [hclen]) hk2]
      rw [if_pos hmemk]
      simp only [Option.getD_some]
      rw [hprsnd, hprfst]
      rw [heval _ hprm]
    rw [good_sum_eval _ (goodPairs msp (k0 :: ks')) c v (w.set 0 0)
      (hashG1 gid) ((msp.mat.headD []).length) hcols hrowlens hv
      (by rw [List.length_set]; exact hw) (set_zero_getD_zero w) hGm hsol]
    rw [hc0, hsymE, hivE]
    have hfin : symKey + scalarMult (newMAABE p).gt (v.getD 0 0) +
        -((0 : ZMod p) + ((v.getD 0 0 : ℤ) : ZMod p)) = symKey := by
      simp only [scalarMult, newMAABE, pairE]
      ring
    rw [hfin, hcbc]
    exact unpad_padded msg
  exact main
    { c0 := symKey + scalarMult (newMAABE p).gt (v.getD 0 0),
      c1x := fun att => if att ∈ msp.rowToAttrib then
          some (c1val (newMAABE p) pks
            (buildMap msp.rowToAttrib (msp.mat.map (fun row => dotZ row v)))
            (buildMap msp.rowToAttrib rI) att) else none,
      c2x := fun att => if att ∈ msp.rowToAttrib then
          some (c2val (newMAABE p) (buildMap msp.rowToAttrib rI) att) else none,
      c3x := fun att => if att ∈ msp.rowToAttrib then
          some (c3val (newMAABE p) pks
            (buildMap msp.rowToAttrib
              (msp.mat.map (fun row => dotZ row (w.set 0 0))))
            (buildMap msp.rowToAttrib rI) att) else none,
      msp := msp,
      symEnc := encCBC (shaFn symKey) iv
        (msg ++ List.replicate (16 - msg.length % 16) (16 - msg.length % 16)),
      iv := iv } rfl rfl rfl rfl rfl rfl rfl

end GoFE

namespace GoFE

/-- Witness for C2: a one-row policy over one attribute, `p = 5`,
`α = 2`, `y = 3`, `H(gid) = 1`, message `[7, 7]`. -/
theorem C2_maabe_roundtrip_witness :
    Except.bind
      (maEncrypt (newMAABE 5) (fun _ => []) (fun _ _ d => d) 4 [] [3] [4] [2]
        [7, 7] { mat := [[1]], rowToAttrib := ["a"] }
        [{ attribs := ["a"],
           eggToAlpha := fun att => if att = "a" then some 2 else none,
           gToY := fun att => if att = "a" then some 3 else none }])
      (fun ct => maDecrypt (newMAABE 5) (fun _ => 1) (fun _ _ _ => some [1])
        (fun _ => []) (fun _ _ d => d) ct
        [{ gid := "u", attrib := "a", key := 0 }]) =
      Except.ok [7, 7] := by
  refine C2_maabe_roundtrip (fun _ => 1) (fun _ _ _ => some [1]) (fun _ => [])
    (fun _ _ d => d) (fun _ _ d => d) 4 [] [3] [4] [2] [7, 7]
    { mat := [[1]], rowToAttrib := ["a"] }
    [{ attribs := ["a"],
       eggToAlpha := fun att => if att = "a" then some 2 else none,
       gToY := fun att => if att = "a" then some 3 else none }]
    "u" [{ gid := "u", attrib := "a", key := 0 }] [1]
    (fun _ _ _ => rfl) (by decide) (by decide) (by decide) rfl (by decide)
    rfl rfl (by decide) (by decide) (by decide) (by decide) ?_ (by decide)
    rfl (by decide) (by decide)
  intro k hk
  simp only [List.mem_singleton] at hk
  subst hk
  exact ⟨{ attribs := ["a"],
           eggToAlpha := fun att => if att = "a" then some 2 else none,
           gToY := fun att => if att = "a" then some 3 else none },
    2, 3, rfl, rfl, rfl, by decide⟩

end GoFE
